import Mathlib

/-!
# Verification of the Instacart grocery-price scraper core (src/main.js, second draft)

Shallow embedding of the scraper's pure core logic:
* JS scalar values (`JSVal`) with JS truthiness,
* `parsePrice` (main.js 800-806),
* the merge/dedup engine `mergeProductDetails` (main.js 1132-1168),
* the HTTP transport retry policy `fetchWithHTTP` (main.js 1230-1284),
* the fetch-escalation decision of `scrapeUrl` (main.js 1419-1430),
* the Apollo state decoder `extractApolloState` (main.js 387-446) with
  `decodeHtmlEntities` (355-368) and a JSON.parse model,
* the reference-graph walker `findProductArrays` (main.js 712-746),
* the product-URL derivations of `extractLandingProduct` (671-674) and
  `extractProductFields` (768-770),
* the run loop with its listing dedup (main.js 1793-1840) and the
  enrichment re-push dedup (1866-1873).

Machine integers do not occur: the JS code only manipulates small counters
and decimal prices, modelled as `Nat` and `Rat`.
-/

/-- JS scalar values as they occur in the scraper's records and fields.
`undef` is JS `undefined`, `null` is JS `null`. Numbers are modelled as
rationals (the code only produces decimal literals via `parseFloat`). -/
inductive JSVal where
  | undef
  | null
  | bool (b : Bool)
  | num (q : ℚ)
  | str (s : String)
deriving DecidableEq, Repr

/-- JS truthiness (`Boolean(v)`): `undefined`, `null`, `false`, `0`, `""`
are falsy, everything else truthy. -/
def jsTruthy : JSVal → Bool
  | .undef => false
  | .null => false
  | .bool b => b
  | .num q => decide (q ≠ 0)
  | .str s => decide (s ≠ "")

/-- JS `a || b`: the left operand when truthy, otherwise the right one. -/
def jsOr (a b : JSVal) : JSVal := if jsTruthy a then a else b

/-- JS `String(v)` coercion for the scalar values above.  Non-integer
number formatting is not exercised by any theorem below (in `parsePrice`
the number case returns before coercion). -/
def jsStringCoerce : JSVal → String
  | .undef => "undefined"
  | .null => "null"
  | .bool true => "true"
  | .bool false => "false"
  | .num q => if q.den = 1 then toString q.num else toString q
  | .str s => s

/-- Value of a digit list read in base 10 (helper for the `parseFloat` model). -/
def digitsVal (cs : List Char) : ℕ :=
  cs.foldl (fun a c => 10 * a + (c.toNat - 48)) 0

/-- Model of JS `parseFloat` restricted to strings over digits and dots —
the only strings it receives in `parsePrice`, whose input was cleaned by
`.replace(/[^0-9.]/g, '')`.  `parseFloat` reads the longest prefix
`digits ['.' digits]` and is NaN (here `none`) when that prefix is empty;
the value `int + frac/10^|frac|` is assembled as one division
`digits(int ++ frac) / 10^|frac|`. -/
def jsParseFloat (s : String) : Option ℚ :=
  let cs := s.toList
  let intPart := cs.takeWhile Char.isDigit
  let rest := cs.dropWhile Char.isDigit
  let fracPart :=
    match rest with
    | '.' :: rs => rs.takeWhile Char.isDigit
    | _ => []
  if intPart.isEmpty && fracPart.isEmpty then none
  else some ((digitsVal (intPart ++ fracPart) : ℚ) / (10 : ℚ) ^ fracPart.length)

/-- The character class kept by `.replace(/[^0-9.]/g, '')`. -/
def isPriceChar (c : Char) : Bool := c.isDigit || c == '.'

/-- `parsePrice` (main.js 800-806):
`if (!priceStr) return null; if (typeof priceStr === 'number') return priceStr;
const cleaned = String(priceStr).replace(/[^0-9.]/g, '');
const parsed = parseFloat(cleaned); return isNaN(parsed) ? null : parsed;` -/
def parsePrice (priceStr : JSVal) : JSVal :=
  if !jsTruthy priceStr then .null
  else
    match priceStr with
    | .num q => .num q
    | v =>
      let cleaned := String.mk ((jsStringCoerce v).toList.filter isPriceChar)
      match jsParseFloat cleaned with
      | none => .null
      | some q => .num q

/-- C3: `parsePrice` keeps only digits and the decimal point and parses the
remainder as a decimal; unparsable, empty or null inputs yield null (never
zero, never an exception — the function is total into `JSVal`), and the four
documented examples hold. -/
theorem parsePrice_normalization :
    parsePrice (.str "$5.99") = .num (599 / 100) ∧
    parsePrice (.str "was $7.99 each") = .num (799 / 100) ∧
    parsePrice (.str "") = .null ∧
    parsePrice .null = .null ∧
    (∀ s : String, s ≠ "" →
      parsePrice (.str s) =
        match jsParseFloat (String.mk (s.toList.filter isPriceChar)) with
        | none => .null
        | some q => .num q) := by
  refine ⟨?_, ?_, by decide, by decide, ?_⟩
  · have h1 : parsePrice (.str "$5.99") =
        .num ((digitsVal ['5', '9', '9'] : ℚ) / (10 : ℚ) ^ 2) := rfl
    have h2 : digitsVal ['5', '9', '9'] = 599 := by decide
    rw [h1, h2]; norm_num
  · have h1 : parsePrice (.str "was $7.99 each") =
        .num ((digitsVal ['7', '9', '9'] : ℚ) / (10 : ℚ) ^ 2) := rfl
    have h2 : digitsVal ['7', '9', '9'] = 799 := by decide
    rw [h1, h2]; norm_num
  · intro s hs
    simp [parsePrice, jsTruthy, hs, jsStringCoerce]

/-- Witness for C3: the general strip-and-parse clause evaluated at the
concrete nonempty input `"$3.50 / lb"`. -/
theorem parsePrice_normalization_witness :
    parsePrice (.str "$3.50 / lb") = .num (7 / 2) := by
  have h := parsePrice_normalization.2.2.2.2 "$3.50 / lb" (by decide)
  have h1 : (match jsParseFloat (String.mk ("$3.50 / lb".toList.filter isPriceChar)) with
      | none => JSVal.null
      | some q => JSVal.num q) =
      .num ((digitsVal ['3', '5', '0'] : ℚ) / (10 : ℚ) ^ 2) := rfl
  have h2 : digitsVal ['3', '5', '0'] = 350 := by decide
  rw [h, h1, h2]; norm_num

/-! ## Merge & dedup engine: `mergeProductDetails` (main.js 1132-1168) -/

/-- The twelve field names iterated by `mergeProductDetails`' `for` loop,
in source order (main.js 1135-1148). -/
inductive MField where
  | product_id
  | price
  | original_price
  | unit_price
  | brand
  | size
  | image_url
  | product_url
  | in_stock
  | store
  | store_slug
  | currency
deriving DecidableEq, Repr

/-- The JS field-name string of each merge field (the loop compares
`field === 'store'` and `field === 'price'` on these strings). -/
def fieldName : MField → String
  | .product_id => "product_id"
  | .price => "price"
  | .original_price => "original_price"
  | .unit_price => "unit_price"
  | .brand => "brand"
  | .size => "size"
  | .image_url => "image_url"
  | .product_url => "product_url"
  | .in_stock => "in_stock"
  | .store => "store"
  | .store_slug => "store_slug"
  | .currency => "currency"

/-- A product record restricted to the fields `mergeProductDetails` reads or
writes: the twelve merged fields plus the two stamp fields set on a
successful merge (main.js 1163-1166). -/
structure ProductRec where
  product_id : JSVal := .undef
  price : JSVal := .undef
  original_price : JSVal := .undef
  unit_price : JSVal := .undef
  brand : JSVal := .undef
  size : JSVal := .undef
  image_url : JSVal := .undef
  product_url : JSVal := .undef
  in_stock : JSVal := .undef
  store : JSVal := .undef
  store_slug : JSVal := .undef
  currency : JSVal := .undef
  detail_extraction_method : JSVal := .undef
  enriched_at : JSVal := .undef
deriving DecidableEq, Repr

/-- Dynamic read `r[field]` for the merged fields. -/
def ProductRec.get (r : ProductRec) : MField → JSVal
  | .product_id => r.product_id
  | .price => r.price
  | .original_price => r.original_price
  | .unit_price => r.unit_price
  | .brand => r.brand
  | .size => r.size
  | .image_url => r.image_url
  | .product_url => r.product_url
  | .in_stock => r.in_stock
  | .store => r.store
  | .store_slug => r.store_slug
  | .currency => r.currency

/-- Dynamic write `r[field] = v` for the merged fields. -/
def ProductRec.set (r : ProductRec) : MField → JSVal → ProductRec
  | .product_id, v => { r with product_id := v }
  | .price, v => { r with price := v }
  | .original_price, v => { r with original_price := v }
  | .unit_price, v => { r with unit_price := v }
  | .brand, v => { r with brand := v }
  | .size, v => { r with size := v }
  | .image_url, v => { r with image_url := v }
  | .product_url, v => { r with product_url := v }
  | .in_stock, v => { r with in_stock := v }
  | .store, v => { r with store := v }
  | .store_slug, v => { r with store_slug := v }
  | .currency, v => { r with currency := v }

/-- The skip test `value === undefined || value === null || value === ''`
(main.js 1152). -/
def isNullish (v : JSVal) : Bool := v == .undef || v == .null || v == .str ""

/-- The overwrite test of main.js 1154-1156:
`current === undefined || current === null || current === '' ||
(field === 'store' && current === 'Instacart') ||
(field === 'price' && (!current || current === 0))`. -/
def shouldRep (field : MField) (current : JSVal) : Bool :=
  current == .undef || current == .null || current == .str "" ||
  (fieldName field == "store" && current == .str "Instacart") ||
  (fieldName field == "price" && (!jsTruthy current || current == .num 0))

/-- One iteration of the merge loop (main.js 1150-1161), acting on the
accumulated `(target, updated)` pair. -/
def mergeStep (detail : ProductRec) (acc : ProductRec × Bool) (field : MField) : ProductRec × Bool :=
  let value := detail.get field
  if isNullish value then acc
  else if shouldRep field (acc.1.get field) then (acc.1.set field value, true)
  else acc

/-- The `fields` list of main.js 1135-1148, in source order. -/
def mergeFields : List MField :=
  [.product_id, .price, .original_price, .unit_price, .brand, .size,
   .image_url, .product_url, .in_stock, .store, .store_slug, .currency]

/-- `mergeProductDetails(target, detail, method)` (main.js 1132-1168).
The `new Date().toISOString()` enrichment timestamp is passed in as `now`
(time is an input of the model).  The `!target || !detail` guard concerns
absent records and is outside this record-level model.  Returns the updated
record and the `updated` flag. -/
def mergeProductDetails (target detail : ProductRec) (method : JSVal) (now : String) :
    ProductRec × Bool :=
  let folded := mergeFields.foldl (mergeStep detail) (target, false)
  if folded.2 && jsTruthy method then
    ({ folded.1 with detail_extraction_method := method, enriched_at := .str now }, folded.2)
  else folded

/-- Value a single merged field ends up with: skip null-ish incoming values,
overwrite when `shouldRep` allows it, keep the current value otherwise. -/
def mergeFieldVal (detail : ProductRec) (cur : JSVal) (f : MField) : JSVal :=
  if isNullish (detail.get f) then cur
  else if shouldRep f cur then detail.get f
  else cur

/-- Whether processing field `f` against current value `cur` fires a write. -/
def writesB (detail : ProductRec) (cur : JSVal) (f : MField) : Bool :=
  !isNullish (detail.get f) && shouldRep f cur

lemma ProductRec.get_set (r : ProductRec) (f g : MField) (v : JSVal) :
    (r.set f v).get g = if g = f then v else r.get g := by
  cases f <;> cases g <;> simp [ProductRec.get, ProductRec.set]

lemma stamp_get (r : ProductRec) (mm ee : JSVal) (f : MField) :
    ProductRec.get { r with detail_extraction_method := mm, enriched_at := ee } f = r.get f := by
  cases f <;> rfl

lemma mergeStep_get_ne (d : ProductRec) (acc : ProductRec × Bool) (g f : MField)
    (h : f ≠ g) : ((mergeStep d acc g).1).get f = acc.1.get f := by
  simp only [mergeStep]
  split_ifs <;> simp [ProductRec.get_set, h]

lemma mergeStep_get_self (d : ProductRec) (acc : ProductRec × Bool) (f : MField) :
    ((mergeStep d acc f).1).get f = mergeFieldVal d (acc.1.get f) f := by
  simp only [mergeStep, mergeFieldVal]
  split_ifs <;> simp [ProductRec.get_set]

lemma foldl_mergeStep_get (d : ProductRec) (l : List MField) (hl : l.Nodup)
    (acc : ProductRec × Bool) (f : MField) :
    ((l.foldl (mergeStep d) acc).1).get f =
      if f ∈ l then mergeFieldVal d (acc.1.get f) f else acc.1.get f := by
  induction l generalizing acc with
  | nil => simp
  | cons g l ih =>
    rcases List.nodup_cons.mp hl with ⟨hg, hl'⟩
    rw [List.foldl_cons, ih hl']
    by_cases hfg : f = g
    · subst hfg
      rw [if_neg hg, mergeStep_get_self, if_pos (List.mem_cons_self f l)]
    · rw [mergeStep_get_ne d acc g f hfg]
      by_cases hfl : f ∈ l
      · rw [if_pos hfl, if_pos (List.mem_cons_of_mem g hfl)]
      · rw [if_neg hfl, if_neg (by simp [hfg, hfl])]

lemma list_any_congr {α : Type} (l : List α) (f g : α → Bool)
    (h : ∀ a ∈ l, f a = g a) : l.any f = l.any g := by
  induction l with
  | nil => rfl
  | cons a l ih =>
    simp only [List.any_cons, h a (List.mem_cons_self a l),
      ih (fun b hb => h b (List.mem_cons_of_mem a hb))]

lemma mergeStep_flag (d : ProductRec) (acc : ProductRec × Bool) (g : MField) :
    (mergeStep d acc g).2 = (acc.2 || writesB d (acc.1.get g) g) := by
  simp only [mergeStep, writesB]
  split_ifs with h1 h2
  · simp [h1]
  · simp [h1, h2]
  · simp [h1, h2]

lemma foldl_mergeStep_flag (d : ProductRec) (l : List MField) (hl : l.Nodup)
    (acc : ProductRec × Bool) :
    (l.foldl (mergeStep d) acc).2 =
      (acc.2 || l.any (fun f => writesB d (acc.1.get f) f)) := by
  induction l generalizing acc with
  | nil => simp
  | cons g l ih =>
    rcases List.nodup_cons.mp hl with ⟨hg, hl'⟩
    rw [List.foldl_cons, ih hl', mergeStep_flag]
    have h4 : (l.any fun f => writesB d ((mergeStep d acc g).1.get f) f) =
        (l.any fun f => writesB d (acc.1.get f) f) :=
      list_any_congr l _ _ (fun f hf => by
        rw [mergeStep_get_ne d acc g f (fun he => hg (he ▸ hf))])
    rw [h4, List.any_cons, Bool.or_assoc]

lemma mergeStep_dem (d : ProductRec) (acc : ProductRec × Bool) (g : MField) :
    ((mergeStep d acc g).1).detail_extraction_method = acc.1.detail_extraction_method := by
  simp only [mergeStep]
  split_ifs <;> first | rfl | (cases g <;> rfl)

lemma mergeStep_ea (d : ProductRec) (acc : ProductRec × Bool) (g : MField) :
    ((mergeStep d acc g).1).enriched_at = acc.1.enriched_at := by
  simp only [mergeStep]
  split_ifs <;> first | rfl | (cases g <;> rfl)

lemma foldl_mergeStep_dem (d : ProductRec) (l : List MField) (acc : ProductRec × Bool) :
    ((l.foldl (mergeStep d) acc).1).detail_extraction_method =
      acc.1.detail_extraction_method := by
  induction l generalizing acc with
  | nil => rfl
  | cons g l ih => rw [List.foldl_cons, ih, mergeStep_dem]

lemma foldl_mergeStep_ea (d : ProductRec) (l : List MField) (acc : ProductRec × Bool) :
    ((l.foldl (mergeStep d) acc).1).enriched_at = acc.1.enriched_at := by
  induction l generalizing acc with
  | nil => rfl
  | cons g l ih => rw [List.foldl_cons, ih, mergeStep_ea]

lemma mergeFields_nodup : mergeFields.Nodup := by decide

lemma mem_mergeFields (f : MField) : f ∈ mergeFields := by cases f <;> decide

lemma mergeProductDetails_get (t d : ProductRec) (m : JSVal) (now : String) (f : MField) :
    ((mergeProductDetails t d m now).1).get f = mergeFieldVal d (t.get f) f := by
  simp only [mergeProductDetails]
  split_ifs with h
  · rw [stamp_get, foldl_mergeStep_get d mergeFields mergeFields_nodup (t, false) f,
      if_pos (mem_mergeFields f)]
  · rw [foldl_mergeStep_get d mergeFields mergeFields_nodup (t, false) f,
      if_pos (mem_mergeFields f)]

lemma isNullish_iff (v : JSVal) :
    isNullish v = true ↔ (v = .undef ∨ v = .null ∨ v = .str "") := by
  cases v <;> simp [isNullish]

lemma shouldRep_iff (f : MField) (cur : JSVal) (hb : f = .price → ∀ b, cur ≠ .bool b) :
    shouldRep f cur = true ↔
      (cur = .undef ∨ cur = .null ∨ cur = .str "" ∨
       (f = .store ∧ cur = .str "Instacart") ∨
       (f = .price ∧ (cur = .null ∨ cur = .num 0))) := by
  cases f <;> cases cur <;>
    simp_all [shouldRep, fieldName, jsTruthy]

/-- C1: for every existing record, incoming detail payload and field of the
merge field list, the incoming value is written exactly when it is itself
non-null (not undefined/null/empty) and the existing value is null, undefined
or the empty string, or the field is `store` and the existing value is the
generic placeholder `"Instacart"`, or the field is `price` and the existing
value is null or zero; in every other case the existing value is untouched.
The hypothesis records that a price is never a boolean (prices in the code
are produced by `parsePrice`, yielding a number or null). -/
theorem mergeProductDetails_precedence (target detail : ProductRec) (method : JSVal)
    (now : String) (f : MField) (hp : ∀ b : Bool, target.price ≠ .bool b) :
    ((mergeProductDetails target detail method now).1).get f =
      if ¬(detail.get f = .undef ∨ detail.get f = .null ∨ detail.get f = .str "") ∧
         ((target.get f = .undef ∨ target.get f = .null ∨ target.get f = .str "") ∨
          (f = .store ∧ target.get f = .str "Instacart") ∨
          (f = .price ∧ (target.get f = .null ∨ target.get f = .num 0)))
      then detail.get f else target.get f := by
  rw [mergeProductDetails_get]
  have hb : f = .price → ∀ b : Bool, target.get f ≠ .bool b := by
    rintro rfl b
    exact hp b
  unfold mergeFieldVal
  by_cases h1 : isNullish (detail.get f)
  · rw [if_pos h1, if_neg]
    rintro ⟨hnn, -⟩
    exact hnn ((isNullish_iff (detail.get f)).mp h1)
  · rw [if_neg h1]
    by_cases h2 : shouldRep f (target.get f)
    · rw [if_pos h2, if_pos]
      refine ⟨fun hd => h1 ((isNullish_iff (detail.get f)).mpr hd), ?_⟩
      have h2' := (shouldRep_iff f (target.get f) hb).mp h2
      tauto
    · rw [if_neg h2, if_neg]
      rintro ⟨-, hcond⟩
      exact h2 ((shouldRep_iff f (target.get f) hb).mpr (by tauto))

/-- Witness for C1: a record whose store is still the placeholder and whose
price is null takes both incoming values, while its populated brand survives. -/
theorem mergeProductDetails_precedence_witness :
    ((mergeProductDetails
        { store := .str "Instacart", price := .null, brand := .str "BrandX" }
        { store := .str "Acme Market", price := .num 3, brand := .str "Noise" }
        (.str "detail_enrichment") "2026-01-01T00:00:00.000Z").1).get .store =
      .str "Acme Market" := by
  have h := mergeProductDetails_precedence
    { store := .str "Instacart", price := .null, brand := .str "BrandX" }
    { store := .str "Acme Market", price := .num 3, brand := .str "Noise" }
    (.str "detail_enrichment") "2026-01-01T00:00:00.000Z" .store (by decide)
  rw [h]
  decide

lemma mergeFieldVal_idem (d : ProductRec) (cur : JSVal) (f : MField) :
    mergeFieldVal d (mergeFieldVal d cur f) f = mergeFieldVal d cur f := by
  unfold mergeFieldVal
  by_cases h1 : isNullish (d.get f)
  · simp [h1]
  · by_cases h2 : shouldRep f cur
    · simp only [if_neg h1, if_pos h2]
      split_ifs <;> rfl
    · simp [h1, h2]

lemma writesB_regress (d : ProductRec) (cur : JSVal) (f : MField)
    (h : writesB d (mergeFieldVal d cur f) f = true) : writesB d cur f = true := by
  unfold mergeFieldVal at h
  by_cases h1 : isNullish (d.get f)
  · rwa [if_pos h1] at h
  · rw [if_neg h1] at h
    by_cases h2 : shouldRep f cur
    · unfold writesB
      simp [h1, h2]
    · rwa [if_neg h2] at h

lemma mergeProductDetails_dem (t d : ProductRec) (m : JSVal) (now : String) :
    ((mergeProductDetails t d m now).1).detail_extraction_method =
      if ((mergeFields.foldl (mergeStep d) (t, false)).2 && jsTruthy m) = true then m
      else t.detail_extraction_method := by
  simp only [mergeProductDetails]
  split_ifs with h
  · rfl
  · exact foldl_mergeStep_dem d mergeFields (t, false)

lemma mergeProductDetails_ea (t d : ProductRec) (m : JSVal) (now : String) :
    ((mergeProductDetails t d m now).1).enriched_at =
      if ((mergeFields.foldl (mergeStep d) (t, false)).2 && jsTruthy m) = true then .str now
      else t.enriched_at := by
  simp only [mergeProductDetails]
  split_ifs with h
  · rfl
  · exact foldl_mergeStep_ea d mergeFields (t, false)

lemma merge_flag_any (t d : ProductRec) :
    (mergeFields.foldl (mergeStep d) (t, false)).2 =
      mergeFields.any (fun f => writesB d (t.get f) f) := by
  rw [foldl_mergeStep_flag d mergeFields mergeFields_nodup (t, false)]
  simp

lemma ProductRec.ext_fields (r s : ProductRec) (h : ∀ f, r.get f = s.get f)
    (h1 : r.detail_extraction_method = s.detail_extraction_method)
    (h2 : r.enriched_at = s.enriched_at) : r = s := by
  cases r with
  | mk a1 a2 a3 a4 a5 a6 a7 a8 a9 a10 a11 a12 a13 a14 =>
  cases s with
  | mk b1 b2 b3 b4 b5 b6 b7 b8 b9 b10 b11 b12 b13 b14 =>
  have e1 : a1 = b1 := h .product_id
  have e2 : a2 = b2 := h .price
  have e3 : a3 = b3 := h .original_price
  have e4 : a4 = b4 := h .unit_price
  have e5 : a5 = b5 := h .brand
  have e6 : a6 = b6 := h .size
  have e7 : a7 = b7 := h .image_url
  have e8 : a8 = b8 := h .product_url
  have e9 : a9 = b9 := h .in_stock
  have e10 : a10 = b10 := h .store
  have e11 : a11 = b11 := h .store_slug
  have e12 : a12 = b12 := h .currency
  have e13 : a13 = b13 := h1
  have e14 : a14 = b14 := h2
  subst e1 e2 e3 e4 e5 e6 e7 e8 e9 e10 e11 e12 e13 e14
  rfl

/-- C2: the merge is idempotent — merging the same detail payload a second
time (with the same timestamp input, which the first merge already stamped)
leaves the record unchanged: `merge(merge(r,d), d) = merge(r,d)`. -/
theorem mergeProductDetails_idempotent (target detail : ProductRec) (method : JSVal)
    (now : String) :
    (mergeProductDetails (mergeProductDetails target detail method now).1
        detail method now).1 =
      (mergeProductDetails target detail method now).1 := by
  set r1 := (mergeProductDetails target detail method now).1 with hr1
  have hget1 : ∀ f, r1.get f = mergeFieldVal detail (target.get f) f := fun f =>
    mergeProductDetails_get target detail method now f
  have hget2 : ∀ f, ((mergeProductDetails r1 detail method now).1).get f = r1.get f := by
    intro f
    rw [mergeProductDetails_get, hget1, mergeFieldVal_idem, ← hget1]
  have hu : (mergeFields.foldl (mergeStep detail) (r1, false)).2 = true →
      (mergeFields.foldl (mergeStep detail) (target, false)).2 = true := by
    rw [merge_flag_any, merge_flag_any]
    intro h
    rcases List.any_eq_true.mp h with ⟨f, hf, hw⟩
    refine List.any_eq_true.mpr ⟨f, hf, ?_⟩
    rw [hget1] at hw
    exact writesB_regress detail (target.get f) f hw
  refine ProductRec.ext_fields _ _ hget2 ?_ ?_
  · rw [mergeProductDetails_dem]
    split_ifs with h
    · rw [Bool.and_eq_true] at h
      rw [hr1, mergeProductDetails_dem, if_pos (by rw [Bool.and_eq_true]; exact ⟨hu h.1, h.2⟩)]
    · rfl
  · rw [mergeProductDetails_ea]
    split_ifs with h
    · rw [Bool.and_eq_true] at h
      rw [hr1, mergeProductDetails_ea, if_pos (by rw [Bool.and_eq_true]; exact ⟨hu h.1, h.2⟩)]
    · rfl

/-! ## Transport layer: `fetchWithHTTP` (main.js 1230-1284) -/

/-- JS `s.includes(pat)` for nonempty patterns. -/
def jsIncludes (s pat : String) : Bool := decide (pat.toList <:+: s.toList)

/-- `MAX_RETRIES` (main.js 1231). -/
def MAX_RETRIES : ℕ := 3

/-- The part of a `gotScraping` response that `fetchWithHTTP` inspects.
With `responseType: 'text'` the body is a string, or null on an empty
response. -/
structure HttpResponse where
  statusCode : ℕ
  body : Option String
deriving DecidableEq, Repr

/-- `normalizeHtmlBody` (main.js 821-833) restricted to the text bodies
produced by `responseType: 'text'`: null stays null, a string stays itself
(the Buffer/object branches are unreachable for text responses). -/
def normalizeHtmlBody (body : Option String) : Option String := body

/-- The 202 acceptance test `bodyText && bodyText.includes('node-apollo-state')`
(main.js 1254). -/
def bodyHasMarker : Option String → Bool
  | none => false
  | some t => decide (t ≠ "") && jsIncludes t "node-apollo-state"

/-- `fetchWithHTTP(url, retryCount)` (main.js 1230-1284) over an oracle
`resp` giving, per attempt index, the response (or `none` for a
network-level exception, which the `catch` turns into a null return).
Returns the body result (`none` is JS null) and the list of backoff delays
passed to `sleep`, in order.  The recursion of the source is bounded by
`retryCount < MAX_RETRIES`; `fuel` is a structural bound on the remaining
attempts, always instantiated adequately by `fetchWithHTTP` below. -/
def fetchWithHTTPAux (resp : ℕ → Option HttpResponse) : ℕ → ℕ → Option String × List ℕ
  | 0, _ => (none, [])
  | fuel + 1, retryCount =>
    match resp retryCount with
    | none => (none, [])
    | some r =>
      let bodyText := normalizeHtmlBody r.body
      if r.statusCode = 200 then (bodyText, [])
      else if r.statusCode = 202 then
        if bodyHasMarker bodyText then (bodyText, [])
        else if retryCount < MAX_RETRIES then
          let next := fetchWithHTTPAux resp fuel (retryCount + 1)
          (next.1, (1000 * 2 ^ retryCount) :: next.2)
        else (bodyText, [])
      else if (r.statusCode = 429 ∨ r.statusCode = 403 ∨ r.statusCode = 503) ∧
          retryCount < MAX_RETRIES then
        let next := fetchWithHTTPAux resp fuel (retryCount + 1)
        (next.1, (1000 * 2 ^ retryCount) :: next.2)
      else (none, [])

/-- `fetchWithHTTP` entered at a given `retryCount` (the source calls it
with 0 and recurses with `retryCount + 1`). -/
def fetchWithHTTP (resp : ℕ → Option HttpResponse) (retryCount : ℕ) :
    Option String × List ℕ :=
  fetchWithHTTPAux resp (MAX_RETRIES + 1 - retryCount) retryCount

lemma fetch_202_accept (resp : ℕ → Option HttpResponse) (fuel rc : ℕ) (r : HttpResponse)
    (hr : resp rc = some r) (hs : r.statusCode = 202)
    (hm : bodyHasMarker (normalizeHtmlBody r.body) = true) :
    fetchWithHTTPAux resp (fuel + 1) rc = (normalizeHtmlBody r.body, []) := by
  simp [fetchWithHTTPAux, hr, hs, hm]

lemma fetch_202_retry (resp : ℕ → Option HttpResponse) (fuel rc : ℕ) (r : HttpResponse)
    (hr : resp rc = some r) (hs : r.statusCode = 202)
    (hm : bodyHasMarker (normalizeHtmlBody r.body) = false) (hlt : rc < MAX_RETRIES) :
    fetchWithHTTPAux resp (fuel + 1) rc =
      ((fetchWithHTTPAux resp fuel (rc + 1)).1,
        (1000 * 2 ^ rc) :: (fetchWithHTTPAux resp fuel (rc + 1)).2) := by
  simp [fetchWithHTTPAux, hr, hs, hm, hlt]

lemma fetch_202_exhaust (resp : ℕ → Option HttpResponse) (fuel rc : ℕ) (r : HttpResponse)
    (hr : resp rc = some r) (hs : r.statusCode = 202)
    (hm : bodyHasMarker (normalizeHtmlBody r.body) = false) (hge : ¬rc < MAX_RETRIES) :
    fetchWithHTTPAux resp (fuel + 1) rc = (normalizeHtmlBody r.body, []) := by
  simp [fetchWithHTTPAux, hr, hs, hm, hge]

/-- C4: on HTTP 202 the body is returned immediately when it contains the
`node-apollo-state` marker; otherwise the fetch retries with exponential
backoff 1s, 2s, 4s (base 1s, doubling), capped at `MAX_RETRIES = 3` retry
attempts, and after exhausting the retries it returns the attempt-3 body
anyway instead of failing. -/
theorem fetchWithHTTP_202_policy (resp : ℕ → Option HttpResponse) :
    (∀ r : HttpResponse, resp 0 = some r → r.statusCode = 202 →
      bodyHasMarker (normalizeHtmlBody r.body) = true →
      fetchWithHTTP resp 0 = (normalizeHtmlBody r.body, [])) ∧
    ((∀ i, i ≤ MAX_RETRIES → ∃ r : HttpResponse, resp i = some r ∧ r.statusCode = 202 ∧
        bodyHasMarker (normalizeHtmlBody r.body) = false) →
      ∃ r3 : HttpResponse, resp 3 = some r3 ∧
        fetchWithHTTP resp 0 = (normalizeHtmlBody r3.body, [1000, 2000, 4000])) := by
  constructor
  · intro r hr hs hm
    show fetchWithHTTPAux resp (3 + 1) 0 = _
    exact fetch_202_accept resp 3 0 r hr hs hm
  · intro h
    obtain ⟨r0, hr0, hs0, hm0⟩ := h 0 (by norm_num [MAX_RETRIES])
    obtain ⟨r1, hr1, hs1, hm1⟩ := h 1 (by norm_num [MAX_RETRIES])
    obtain ⟨r2, hr2, hs2, hm2⟩ := h 2 (by norm_num [MAX_RETRIES])
    obtain ⟨r3, hr3, hs3, hm3⟩ := h 3 (by norm_num [MAX_RETRIES])
    refine ⟨r3, hr3, ?_⟩
    show fetchWithHTTPAux resp (3 + 1) 0 = _
    rw [fetch_202_retry resp 3 0 r0 hr0 hs0 hm0 (by norm_num [MAX_RETRIES]),
      fetch_202_retry resp 2 1 r1 hr1 hs1 hm1 (by norm_num [MAX_RETRIES]),
      fetch_202_retry resp 1 2 r2 hr2 hs2 hm2 (by norm_num [MAX_RETRIES]),
      fetch_202_exhaust resp 0 3 r3 hr3 hs3 hm3 (by norm_num [MAX_RETRIES])]
    norm_num

/-- Witness for C4: an oracle answering 202 with marker-free bodies `"0"`,
`"1"`, `"2"`, `"3"` produces the last body after delays 1s, 2s, 4s. -/
theorem fetchWithHTTP_202_policy_witness :
    fetchWithHTTP (fun i => some ⟨202, some (toString i)⟩) 0 =
      (some "3", [1000, 2000, 4000]) := by
  obtain ⟨r3, hr3, hf⟩ := (fetchWithHTTP_202_policy (fun i => some ⟨202, some (toString i)⟩)).2
    (by intro i hi
        have hi3 : i ≤ 3 := hi
        interval_cases i <;> exact ⟨_, rfl, rfl, by decide⟩)
  have he : r3 = ⟨202, some "3"⟩ := by
    have h3 : (some ⟨202, some (toString 3)⟩ : Option HttpResponse) = some r3 := hr3
    have := Option.some.inj h3
    rw [← this]
    decide
  rw [hf, he]
  rfl

/-! ## Fetch escalation in `scrapeUrl` (main.js 1419-1430, flag at 346) -/

/-- What one `scrapeUrl` call does with the two fetch paths:
whether each path was attempted, the html obtained, and the
`usePlaywright` flag after the call. -/
structure FetchTrace where
  httpAttempted : Bool
  playwrightAttempted : Bool
  html : Option String
  flagAfter : Bool
deriving DecidableEq, Repr

/-- JS falsiness of the fetched body `!html`: a null result and an
empty-string body are both falsy — an empty 200/202 body therefore counts
as a failed fetch and triggers escalation, exactly as in the source. -/
def htmlFalsy : Option String → Bool
  | none => true
  | some s => decide (s = "")

/-- The fetch-escalation logic of `scrapeUrl` (main.js 1419-1430):
`let html = await fetchWithHTTP(url);` is executed unconditionally
(`httpAttempted` is always true), then
`if (!html && !usePlaywright) usePlaywright = true;`
`if (!html && usePlaywright) html = await fetchWithPlaywright(url);`
with `!html` the JS falsiness test (`htmlFalsy`).
`httpResult`/`pwResult` are the outcomes the two fetchers would return. -/
def scrapeUrlFetch (usePlaywright : Bool) (httpResult pwResult : Option String) :
    FetchTrace :=
  let html := httpResult
  let flag1 := if htmlFalsy html && !usePlaywright then true else usePlaywright
  if htmlFalsy html && flag1 then
    { httpAttempted := true, playwrightAttempted := true, html := pwResult,
      flagAfter := flag1 }
  else
    { httpAttempted := true, playwrightAttempted := false, html := html,
      flagAfter := flag1 }

/-- A run's successive page fetches, threading the `usePlaywright` flag
(declared once per run, main.js 346) through the pages.  Each page comes
with the results its two fetchers would produce. -/
def runFetches : List (Option String × Option String) → Bool → List FetchTrace × Bool
  | [], flag => ([], flag)
  | (http, pw) :: rest, flag =>
    let t := scrapeUrlFetch flag http pw
    let r := runFetches rest t.flagAfter
    (t :: r.1, r.2)

/-- C5 counterexample: in a run whose first page's direct-HTTP fetch fails
(escalating the flag), the second page is fetched by direct HTTP again —
`httpAttempted = true` — and, since that HTTP attempt succeeds, the render
path is not used at all, contradicting the claim that every subsequent
fetch uses the render path without re-attempting direct HTTP first. -/
theorem scrapeUrl_escalation_counterexample :
    (runFetches [(none, some "rendered"), (some "direct", none)] false).1 =
      [{ httpAttempted := true, playwrightAttempted := true, html := some "rendered",
         flagAfter := true },
       { httpAttempted := true, playwrightAttempted := false, html := some "direct",
         flagAfter := true }] := by
  decide

/-- C5 amended: the escalation flag is sticky — it is set when a direct-HTTP
fetch fails (returns null or an empty, JS-falsy body), and once true it
never resets for the rest of the run — and whenever the HTTP result is
falsy the render path is used; but every page fetch still attempts direct
HTTP first, and the render path is only used on pages where that attempt
yields a falsy result. -/
theorem scrapeUrl_escalation_amended :
    (∀ (flag : Bool) (http pw : Option String),
      (scrapeUrlFetch flag http pw).httpAttempted = true) ∧
    (∀ (flag : Bool) (http pw : Option String), flag = true →
      (scrapeUrlFetch flag http pw).flagAfter = true) ∧
    (∀ (flag : Bool) (http pw : Option String), htmlFalsy http = true →
      (scrapeUrlFetch flag http pw).flagAfter = true ∧
      (scrapeUrlFetch flag http pw).playwrightAttempted = true ∧
      (scrapeUrlFetch flag http pw).html = pw) ∧
    (∀ (flag : Bool) (http pw : Option String), htmlFalsy http = false →
      (scrapeUrlFetch flag http pw).playwrightAttempted = false ∧
      (scrapeUrlFetch flag http pw).html = http) ∧
    (∀ pages : List (Option String × Option String),
      (runFetches pages true).2 = true) := by
  refine ⟨?_, ?_, ?_, ?_, ?_⟩
  · intro flag http pw
    simp only [scrapeUrlFetch]
    split_ifs <;> rfl
  · rintro flag http pw rfl
    simp [scrapeUrlFetch]
    split_ifs <;> rfl
  · intro flag http pw h
    cases flag <;> simp [scrapeUrlFetch, h]
  · intro flag http pw h
    cases flag <;> simp [scrapeUrlFetch, h]
  · intro pages
    induction pages with
    | nil => rfl
    | cons p rest ih =>
      obtain ⟨http, pw⟩ := p
      have hf : (scrapeUrlFetch true http pw).flagAfter = true := by
        cases h : htmlFalsy http <;> simp [scrapeUrlFetch, h]
      simp only [runFetches, hf]
      exact ih

/-- Witness for C5 (amended): concrete instantiation — an empty-string HTTP
body is a falsy fetch result, so it sets the flag and the render path
fires. -/
theorem scrapeUrl_escalation_amended_witness :
    (scrapeUrlFetch false (some "") (some "rendered")).flagAfter = true ∧
    (scrapeUrlFetch false (some "") (some "rendered")).playwrightAttempted = true ∧
    (scrapeUrlFetch false (some "") (some "rendered")).html = some "rendered" :=
  scrapeUrl_escalation_amended.2.2.1 false (some "") (some "rendered") (by decide)

/-! ## Product-URL derivation (main.js 671-674 and 768-770) -/

/-- JS property read `item[k]` on an object modelled as a field list:
`undefined` when the key is absent. -/
def jGetS (item : List (String × JSVal)) (k : String) : JSVal :=
  match item.lookup k with
  | some v => v
  | none => .undef

lemma jsOr_pos (a b : JSVal) (h : jsTruthy a = true) : jsOr a b = a := by
  simp [jsOr, h]

lemma jsOr_neg (a b : JSVal) (h : jsTruthy a = false) : jsOr a b = b := by
  simp [jsOr, h]

/-- The `product_url` computation of `extractLandingProduct` (main.js 594,
597, 671-674): `const id = item.id || item.productId || null;`
`const landingParam = item.landingParam || null;`
`const productUrl = landingParam ?
  \`https://www.instacart.com/products/\x7b...landingParam\x7d\` :
  (id ? \`https://www.instacart.com/products/\x7b...id\x7d\` : null);` -/
def extractLandingProduct_url (item : List (String × JSVal)) : JSVal :=
  let id := jsOr (jsOr (jGetS item "id") (jGetS item "productId")) .null
  let landingParam := jsOr (jGetS item "landingParam") .null
  if jsTruthy landingParam then
    .str ("https://www.instacart.com/products/" ++ jsStringCoerce landingParam)
  else if jsTruthy id then
    .str ("https://www.instacart.com/products/" ++ jsStringCoerce id)
  else .null

/-- The `productUrl` computation of `extractProductFields` (main.js 754-755,
768-770): `const id = product.id || product.productId || product.product_id
|| product.legacyId || product.sku || null;`
`const productUrl = product.url || product.permalink || product.link ||
(product.legacyId ? \`https://www.instacart.com/store/items/item_\x7b...\x7d\` : null) ||
(id ? \`https://www.instacart.com/products/\x7b...id\x7d\` : null);` -/
def extractProductFields_url (product : List (String × JSVal)) : JSVal :=
  let id := jsOr (jsOr (jsOr (jsOr (jsOr (jGetS product "id") (jGetS product "productId"))
    (jGetS product "product_id")) (jGetS product "legacyId")) (jGetS product "sku")) .null
  let legacyId := jGetS product "legacyId"
  jsOr (jsOr (jsOr (jsOr (jGetS product "url") (jGetS product "permalink"))
      (jGetS product "link"))
    (if jsTruthy legacyId then
      .str ("https://www.instacart.com/store/items/item_" ++ jsStringCoerce legacyId)
     else .null))
    (if jsTruthy id then
      .str ("https://www.instacart.com/products/" ++ jsStringCoerce id)
     else .null)

/-- C9 counterexample: a normalized candidate node carrying an explicit
`url` field together with a `landingParam` — `extractLandingProduct` ignores
the explicit URL field and derives the URL from the slug parameter, so the
claimed priority (explicit URL field first) fails on this input. -/
theorem product_url_explicit_field_counterexample :
    extractLandingProduct_url
      [("url", .str "https://example.com/explicit"),
       ("landingParam", .str "apples-123"),
       ("id", .str "55"),
       ("name", .str "Apples")] =
      .str "https://www.instacart.com/products/apples-123" ∧
    JSVal.str "https://www.instacart.com/products/apples-123" ≠
      .str "https://example.com/explicit" := by
  constructor
  · decide
  · decide

/-- C9 amended: `extractLandingProduct` derives the canonical product URL
from the slug parameter (`landingParam`) when truthy, else from the id,
else null — an explicit URL field on the node plays no part; while
`extractProductFields` derives it, in priority order, from the explicit URL
fields `url`, `permalink`, `link`, else from `legacyId` combined with the
store-items path (a different path than the products path), else from the
id combined with the products path, else null. -/
theorem product_url_priority_amended :
    (∀ item : List (String × JSVal),
      (jsTruthy (jsOr (jGetS item "landingParam") .null) = true →
        extractLandingProduct_url item =
          .str ("https://www.instacart.com/products/" ++
            jsStringCoerce (jsOr (jGetS item "landingParam") .null))) ∧
      (jsTruthy (jsOr (jGetS item "landingParam") .null) = false →
        jsTruthy (jsOr (jsOr (jGetS item "id") (jGetS item "productId")) .null) = true →
        extractLandingProduct_url item =
          .str ("https://www.instacart.com/products/" ++
            jsStringCoerce (jsOr (jsOr (jGetS item "id") (jGetS item "productId")) .null))) ∧
      (jsTruthy (jsOr (jGetS item "landingParam") .null) = false →
        jsTruthy (jsOr (jsOr (jGetS item "id") (jGetS item "productId")) .null) = false →
        extractLandingProduct_url item = .null)) ∧
    (∀ product : List (String × JSVal),
      (jsTruthy (jGetS product "url") = true →
        extractProductFields_url product = jGetS product "url") ∧
      (jsTruthy (jGetS product "url") = false →
        jsTruthy (jGetS product "permalink") = true →
        extractProductFields_url product = jGetS product "permalink") ∧
      (jsTruthy (jGetS product "url") = false →
        jsTruthy (jGetS product "permalink") = false →
        jsTruthy (jGetS product "link") = true →
        extractProductFields_url product = jGetS product "link") ∧
      (jsTruthy (jGetS product "url") = false →
        jsTruthy (jGetS product "permalink") = false →
        jsTruthy (jGetS product "link") = false →
        jsTruthy (jGetS product "legacyId") = true →
        extractProductFields_url product =
          .str ("https://www.instacart.com/store/items/item_" ++
            jsStringCoerce (jGetS product "legacyId"))) ∧
      (jsTruthy (jGetS product "url") = false →
        jsTruthy (jGetS product "permalink") = false →
        jsTruthy (jGetS product "link") = false →
        jsTruthy (jGetS product "legacyId") = false →
        extractProductFields_url product =
          (if jsTruthy (jsOr (jsOr (jsOr (jsOr (jsOr (jGetS product "id")
              (jGetS product "productId")) (jGetS product "product_id"))
              (jGetS product "legacyId")) (jGetS product "sku")) .null) = true then
            .str ("https://www.instacart.com/products/" ++
              jsStringCoerce (jsOr (jsOr (jsOr (jsOr (jsOr (jGetS product "id")
                (jGetS product "productId")) (jGetS product "product_id"))
                (jGetS product "legacyId")) (jGetS product "sku")) .null))
          else .null))) := by
  constructor
  · intro item
    refine ⟨?_, ?_, ?_⟩
    · intro h1
      simp only [extractLandingProduct_url]
      rw [if_pos h1]
    · intro h1 h2
      simp only [extractLandingProduct_url]
      rw [if_neg (by simp [h1]), if_pos h2]
    · intro h1 h2
      simp only [extractLandingProduct_url]
      rw [if_neg (by simp [h1]), if_neg (by simp [h2])]
  · intro product
    have hstr : ∀ s : String, jsTruthy (.str ("https://www.instacart.com/store/items/item_" ++ s)) = true := by
      intro s
      have hne : ("https://www.instacart.com/store/items/item_" ++ s) ≠ "" := by
        intro h
        have h2 : ("https://www.instacart.com/store/items/item_".data ++ s.data) = [] := by
          rw [← String.data_append, h]
        exact absurd (List.append_eq_nil.mp h2).1 (by decide)
      simpa [jsTruthy] using hne
    refine ⟨?_, ?_, ?_, ?_, ?_⟩
    · intro h1
      simp only [extractProductFields_url]
      rw [jsOr_pos _ _ (by rw [jsOr_pos _ _ (by rw [jsOr_pos _ _ (by rw [jsOr_pos _ _ h1]; exact h1)]; rw [jsOr_pos _ _ h1]; exact h1)]; rw [jsOr_pos _ _ (by rw [jsOr_pos _ _ h1]; exact h1)]; rw [jsOr_pos _ _ h1]; exact h1),
        jsOr_pos _ _ (by rw [jsOr_pos _ _ (by rw [jsOr_pos _ _ h1]; exact h1)]; rw [jsOr_pos _ _ h1]; exact h1),
        jsOr_pos _ _ (by rw [jsOr_pos _ _ h1]; exact h1), jsOr_pos _ _ h1]
    · intro h1 h2
      simp only [extractProductFields_url]
      rw [jsOr_neg _ _ h1, jsOr_pos _ _ h2, jsOr_pos _ _ h2, jsOr_pos _ _ h2]
    · intro h1 h2 h3
      simp only [extractProductFields_url]
      rw [jsOr_neg _ _ h1, jsOr_neg _ _ h2, jsOr_pos _ _ h3, jsOr_pos _ _ h3]
    · intro h1 h2 h3 h4
      simp only [extractProductFields_url]
      rw [jsOr_neg _ _ h1, jsOr_neg _ _ h2, jsOr_neg _ _ h3, if_pos h4,
        jsOr_pos _ _ (hstr _)]
    · intro h1 h2 h3 h4
      simp only [extractProductFields_url]
      rw [jsOr_neg _ _ h1, jsOr_neg _ _ h2, jsOr_neg _ _ h3, if_neg (by simp [h4]),
        jsOr_neg JSVal.null _ (by decide)]

/-- Witness for C9 (amended): a node with only a `legacyId` gets the
store-items URL, not the products URL. -/
theorem product_url_priority_amended_witness :
    extractProductFields_url [("legacyId", .str "777"), ("name", .str "Bread")] =
      .str "https://www.instacart.com/store/items/item_777" := by
  have h := (product_url_priority_amended.2
    [("legacyId", .str "777"), ("name", .str "Bread")]).2.2.2.1
    (by decide) (by decide) (by decide) (by decide)
  rw [h]
  decide

/-! ## Run loop: listing dedup (main.js 1793-1840) and enrichment re-push
dedup (main.js 1866-1873) -/

/-- The key fields of a scraped product candidate, as read by the dedup
loops: `product.product_id || product.product_url || product.name`. -/
structure LProduct where
  product_id : JSVal := .null
  product_url : JSVal := .null
  name : JSVal := .null
deriving DecidableEq, Repr

/-- `const productKey = product.product_id || product.product_url ||
product.name;` (main.js 1813 and 1869). -/
def productKey (p : LProduct) : JSVal := jsOr (jsOr p.product_id p.product_url) p.name

/-- The mutable state of the listing loop: `saved` and `seenProductIds`. -/
structure ListState where
  saved : ℕ
  seen : List JSVal
deriving DecidableEq, Repr

/-- The per-page product loop (main.js 1810-1829): for each product, break
once `saved >= RESULTS_WANTED`; skip when `dedupe && productKey &&
seenProductIds.has(productKey)`; otherwise add a truthy key to the seen set,
push the product, and increment `saved`.  Returns the final state and the
pushed products (which go to `productsToSave`/`allProducts`). -/
def processListing (RW : ℕ) (dedupe : Bool) : ListState → List LProduct → ListState × List LProduct
  | st, [] => (st, [])
  | st, p :: rest =>
    if RW ≤ st.saved then (st, [])
    else if dedupe && jsTruthy (productKey p) && decide (productKey p ∈ st.seen) then
      processListing RW dedupe st rest
    else
      ((processListing RW dedupe
          ⟨st.saved + 1,
            if jsTruthy (productKey p) then productKey p :: st.seen else st.seen⟩ rest).1,
        p :: (processListing RW dedupe
          ⟨st.saved + 1,
            if jsTruthy (productKey p) then productKey p :: st.seen else st.seen⟩ rest).2)

/-- Number of records in `out` whose dedup key is `k`. -/
def countKey (out : List LProduct) (k : JSVal) : ℕ :=
  (out.filter (fun p => decide (productKey p = k))).length

/-- Claim-side notion: a value that is not JS null and not undefined. -/
def nonNull (v : JSVal) : Bool := !(v == .null || v == .undef)

/-- Claim-side key: the first non-null of `\x7bproduct_id, product_url, name\x7d`
in that priority (spec §3 invariant wording). -/
def firstNonNullKey (p : LProduct) : JSVal :=
  if nonNull p.product_id then p.product_id
  else if nonNull p.product_url then p.product_url
  else p.name

/-- The enrichment re-push dedup (main.js 1866-1873): walk the updated
products, skip those with no truthy key or an already-seen key, keep the
rest. -/
def dedupeUpdated : List LProduct → List JSVal → List LProduct
  | [], _ => []
  | p :: rest, keys =>
    if !jsTruthy (productKey p) || decide (productKey p ∈ keys) then
      dedupeUpdated rest keys
    else p :: dedupeUpdated rest (productKey p :: keys)


lemma countKey_cons (p : LProduct) (l : List LProduct) (k : JSVal) :
    countKey (p :: l) k = (if productKey p = k then 1 else 0) + countKey l k := by
  simp only [countKey, List.filter_cons]
  by_cases h : productKey p = k
  · simp [h, Nat.add_comm]
  · simp [h]

lemma processListing_skip (RW : ℕ) (dedupe : Bool) (st : ListState) (p : LProduct)
    (rest : List LProduct) (hbreak : ¬RW ≤ st.saved)
    (hskip : (dedupe && jsTruthy (productKey p) && decide (productKey p ∈ st.seen)) = true) :
    processListing RW dedupe st (p :: rest) = processListing RW dedupe st rest := by
  simp only [processListing, if_neg hbreak, if_pos hskip]

lemma processListing_push_fst (RW : ℕ) (dedupe : Bool) (st : ListState) (p : LProduct)
    (rest : List LProduct) (hbreak : ¬RW ≤ st.saved)
    (hskip : ¬(dedupe && jsTruthy (productKey p) && decide (productKey p ∈ st.seen)) = true) :
    (processListing RW dedupe st (p :: rest)).1 =
      (processListing RW dedupe
        ⟨st.saved + 1,
          if jsTruthy (productKey p) then productKey p :: st.seen else st.seen⟩ rest).1 := by
  simp only [processListing, if_neg hbreak, if_neg hskip]

lemma processListing_push_snd (RW : ℕ) (dedupe : Bool) (st : ListState) (p : LProduct)
    (rest : List LProduct) (hbreak : ¬RW ≤ st.saved)
    (hskip : ¬(dedupe && jsTruthy (productKey p) && decide (productKey p ∈ st.seen)) = true) :
    (processListing RW dedupe st (p :: rest)).2 =
      p :: (processListing RW dedupe
        ⟨st.saved + 1,
          if jsTruthy (productKey p) then productKey p :: st.seen else st.seen⟩ rest).2 := by
  simp only [processListing, if_neg hbreak, if_neg hskip]

lemma processListing_seen_mono (RW : ℕ) (dedupe : Bool) (prods : List LProduct) :
    ∀ st : ListState, ∀ x ∈ st.seen, x ∈ (processListing RW dedupe st prods).1.seen := by
  induction prods with
  | nil => intro st x hx; simpa [processListing] using hx
  | cons p rest ih =>
    intro st x hx
    by_cases hbreak : RW ≤ st.saved
    · simpa [processListing, hbreak] using hx
    · by_cases hskip : (dedupe && jsTruthy (productKey p) && decide (productKey p ∈ st.seen)) = true
      · rw [processListing_skip RW dedupe st p rest hbreak hskip]
        exact ih st x hx
      · rw [processListing_push_fst RW dedupe st p rest hbreak hskip]
        refine ih _ x ?_
        by_cases ht : jsTruthy (productKey p) <;> simp [ht, hx]

lemma processListing_inv (RW : ℕ) (prods : List LProduct) (k : JSVal)
    (hk : jsTruthy k = true) :
    ∀ st : ListState,
      (k ∈ st.seen → countKey (processListing RW true st prods).2 k = 0) ∧
      countKey (processListing RW true st prods).2 k ≤ 1 ∧
      (1 ≤ countKey (processListing RW true st prods).2 k →
        k ∈ (processListing RW true st prods).1.seen) := by
  induction prods with
  | nil => intro st; simp [processListing, countKey]
  | cons p rest ih =>
    intro st
    by_cases hbreak : RW ≤ st.saved
    · simp [processListing, hbreak, countKey]
    · by_cases hskip : (true && jsTruthy (productKey p) && decide (productKey p ∈ st.seen)) = true
      · rw [processListing_skip RW true st p rest hbreak hskip]
        exact ih st
      · rw [processListing_push_fst RW true st p rest hbreak hskip,
          processListing_push_snd RW true st p rest hbreak hskip, countKey_cons]
        by_cases ht : jsTruthy (productKey p)
        · rw [if_pos ht]
          obtain ⟨ih1, ih2, ih3⟩ := ih ⟨st.saved + 1, productKey p :: st.seen⟩
          refine ⟨?_, ?_, ?_⟩
          · intro hks
            have hpk : productKey p ≠ k := by
              intro he
              exact hskip (by simp [he, hk, hks])
            rw [if_neg hpk, zero_add]
            exact ih1 (List.mem_cons_of_mem _ hks)
          · by_cases hpk : productKey p = k
            · rw [if_pos hpk]
              have h0 := ih1 (by rw [hpk]; exact List.mem_cons_self k st.seen)
              omega
            · rw [if_neg hpk, zero_add]
              exact ih2
          · by_cases hpk : productKey p = k
            · intro _
              refine processListing_seen_mono RW true rest _ k ?_
              show k ∈ productKey p :: st.seen
              rw [hpk]
              exact List.mem_cons_self k st.seen
            · rw [if_neg hpk, zero_add]
              exact ih3
        · rw [if_neg ht]
          obtain ⟨ih1, ih2, ih3⟩ := ih ⟨st.saved + 1, st.seen⟩
          have hpk : productKey p ≠ k := fun he => by
            rw [he] at ht
            exact ht hk
          rw [if_neg hpk, zero_add]
          exact ⟨ih1, ih2, ih3⟩

lemma dedupeUpdated_inv (l : List LProduct) (k : JSVal) (_hk : jsTruthy k = true) :
    ∀ keys : List JSVal,
      (k ∈ keys → countKey (dedupeUpdated l keys) k = 0) ∧
      countKey (dedupeUpdated l keys) k ≤ 1 := by
  induction l with
  | nil => intro keys; simp [dedupeUpdated, countKey]
  | cons p rest ih =>
    intro keys
    by_cases hskip : (!jsTruthy (productKey p) || decide (productKey p ∈ keys)) = true
    · simp only [dedupeUpdated, if_pos hskip]
      exact ih keys
    · simp only [dedupeUpdated, if_neg hskip]
      have hsplit : jsTruthy (productKey p) = true ∧ productKey p ∉ keys := by
        constructor
        · cases h : jsTruthy (productKey p)
          · exact absurd (by simp [h]) hskip
          · rfl
        · intro h
          exact hskip (by simp [h])
      obtain ⟨ih1, ih2⟩ := ih (productKey p :: keys)
      refine ⟨?_, ?_⟩
      · intro hkk
        rw [countKey_cons, if_neg (fun he => hsplit.2 (by rw [he]; exact hkk)), zero_add]
        exact ih1 (List.mem_cons_of_mem _ hkk)
      · rw [countKey_cons]
        by_cases hpk : productKey p = k
        · rw [if_pos hpk]
          have h0 : countKey (dedupeUpdated rest (productKey p :: keys)) k = 0 :=
            ih1 (by rw [hpk]; exact List.mem_cons_self k keys)
          omega
        · rw [if_neg hpk, zero_add]
          exact ih2

/-- C8: the dedup key of a candidate is `product_id || product_url || name`,
which agrees with "first non-null of \x7bproduct_id, product_url, name\x7d" on
candidates whose key fields are each null-ish or truthy (as produced by the
normalizers, where empty strings have already collapsed to null); with
`dedupe` hardcoded `true` (main.js 302) the listing loop never pushes two
records with the same truthy key; a candidate with no truthy key is pushed
without any dedup check; and the enrichment re-push batch also holds at
most one record per truthy key. -/
theorem listing_dedup_invariant (prods : List LProduct) (RW : ℕ) :
    (∀ p : LProduct,
      jsTruthy p.product_id = nonNull p.product_id →
      jsTruthy p.product_url = nonNull p.product_url →
      jsTruthy p.name = nonNull p.name →
      productKey p = firstNonNullKey p) ∧
    (∀ k : JSVal, jsTruthy k = true →
      countKey (processListing RW true ⟨0, []⟩ prods).2 k ≤ 1) ∧
    (∀ (st : ListState) (p : LProduct) (rest : List LProduct),
      jsTruthy (productKey p) = false → ¬RW ≤ st.saved →
      processListing RW true st (p :: rest) =
        ((processListing RW true ⟨st.saved + 1, st.seen⟩ rest).1,
          p :: (processListing RW true ⟨st.saved + 1, st.seen⟩ rest).2)) ∧
    (∀ (l : List LProduct) (k : JSVal), jsTruthy k = true →
      countKey (dedupeUpdated l []) k ≤ 1) := by
  refine ⟨?_, ?_, ?_, ?_⟩
  · intro p h1 h2 h3
    unfold productKey firstNonNullKey jsOr
    rw [← h1, ← h2]
    by_cases t1 : jsTruthy p.product_id
    · simp [t1]
    · simp only [Bool.not_eq_true] at t1
      by_cases t2 : jsTruthy p.product_url
      · simp [t1, t2]
      · simp only [Bool.not_eq_true] at t2
        simp [t1, t2]
  · intro k hk
    exact ((processListing_inv RW prods k hk) ⟨0, []⟩).2.1
  · intro st p rest hfalse hbreak
    have hskip : ¬(true && jsTruthy (productKey p) && decide (productKey p ∈ st.seen)) = true := by
      simp [hfalse]
    rw [Prod.ext_iff]
    refine ⟨?_, ?_⟩
    · rw [processListing_push_fst RW true st p rest hbreak hskip, if_neg (by simp [hfalse])]
    · rw [processListing_push_snd RW true st p rest hbreak hskip, if_neg (by simp [hfalse])]
  · intro l k hk
    exact ((dedupeUpdated_inv l k hk) []).2

/-- Witness for C8: a page with a duplicated candidate keeps one copy, and
the key of a candidate whose id is null is its url. -/
theorem listing_dedup_invariant_witness :
    countKey (processListing 10 true ⟨0, []⟩
      [{ product_id := .str "a", product_url := .null, name := .str "Milk" },
       { product_id := .str "a", product_url := .null, name := .str "Milk" }]).2
      (.str "a") ≤ 1 ∧
    productKey { product_id := .null, product_url := .str "u1", name := .str "Milk" } =
      firstNonNullKey { product_id := .null, product_url := .str "u1", name := .str "Milk" } := by
  constructor
  · exact (listing_dedup_invariant
      [{ product_id := .str "a", product_url := .null, name := .str "Milk" },
       { product_id := .str "a", product_url := .null, name := .str "Milk" }] 10).2.1
      (.str "a") (by decide)
  · exact (listing_dedup_invariant [] 0).1
      { product_id := .null, product_url := .str "u1", name := .str "Milk" }
      (by decide) (by decide) (by decide)

/-! ## Run loop and pagination counter (main.js 1793-1840) -/

/-- The run-level mutable state threaded through start URLs: the pagination
counter `currentPage` (declared once before the URL loop, main.js 1794),
`saved`, and `seenProductIds`. -/
structure RunState where
  currentPage : ℕ
  saved : ℕ
  seen : List JSVal
deriving DecidableEq, Repr

/-- The `while (currentPage <= MAX_PAGES && saved < RESULTS_WANTED)` loop of
one start URL (main.js 1799-1839), with `pages n` the products `scrapeUrl`
yields for page `n`.  Per iteration: fetch the page; if it is empty, break
(without incrementing); process its products with the listing dedup loop;
break when the target is reached; otherwise increment `currentPage`.
Returns the final state, the page numbers fetched in order, and the pushed
products.  `fuel` bounds the iterations structurally and is instantiated
with `MAX_PAGES + 1 - currentPage` by `runUrl`, which makes the guard, not
the fuel, the reason every loop exits. -/
def runUrlAux (MP RW : ℕ) (pages : ℕ → List LProduct) :
    ℕ → RunState → RunState × List ℕ × List LProduct
  | 0, st => (st, [], [])
  | fuel + 1, st =>
    if st.currentPage ≤ MP ∧ st.saved < RW then
      if (pages st.currentPage).isEmpty then (st, [st.currentPage], [])
      else
        let r := processListing RW true ⟨st.saved, st.seen⟩ (pages st.currentPage)
        if RW ≤ r.1.saved then
          ({ currentPage := st.currentPage, saved := r.1.saved, seen := r.1.seen },
            [st.currentPage], r.2)
        else
          let nxt := runUrlAux MP RW pages fuel
            { currentPage := st.currentPage + 1, saved := r.1.saved, seen := r.1.seen }
          (nxt.1, st.currentPage :: nxt.2.1, r.2 ++ nxt.2.2)
    else (st, [], [])

/-- One start URL's traversal, entered at the current run state. -/
def runUrl (MP RW : ℕ) (pages : ℕ → List LProduct) (st : RunState) :
    RunState × List ℕ × List LProduct :=
  runUrlAux MP RW pages (MP + 1 - st.currentPage) st

/-- The `for (const startReq of initial)` loop (main.js 1796-1840): the run
state — including the page counter — flows from one start URL to the next
with no reset.  Returns the final state, the per-URL fetch traces, and all
pushed products. -/
def runAll (MP RW : ℕ) : List (ℕ → List LProduct) → RunState →
    RunState × List (List ℕ) × List LProduct
  | [], st => (st, [], [])
  | o :: os, st =>
    ((runAll MP RW os (runUrl MP RW o st).1).1,
      (runUrl MP RW o st).2.1 :: (runAll MP RW os (runUrl MP RW o st).1).2.1,
      (runUrl MP RW o st).2.2 ++ (runAll MP RW os (runUrl MP RW o st).1).2.2)

lemma runUrlAux_spec (MP RW : ℕ) (pages : ℕ → List LProduct) (fuel : ℕ) :
    ∀ st : RunState,
      st.currentPage ≤ (runUrlAux MP RW pages fuel st).1.currentPage ∧
      ((runUrlAux MP RW pages fuel st).2.1 ≠ [] →
        (runUrlAux MP RW pages fuel st).2.1.head? = some st.currentPage) ∧
      (∀ x ∈ (runUrlAux MP RW pages fuel st).2.1,
        st.currentPage ≤ x ∧ x ≤ MP ∧ x ≤ (runUrlAux MP RW pages fuel st).1.currentPage) := by
  induction fuel with
  | zero => intro st; simp [runUrlAux]
  | succ fuel ih =>
    intro st
    by_cases hg : st.currentPage ≤ MP ∧ st.saved < RW
    · by_cases hpe : (pages st.currentPage).isEmpty
      · simp only [runUrlAux, if_pos hg, if_pos hpe]
        refine ⟨le_refl _, fun _ => rfl, ?_⟩
        intro x hx
        rw [List.mem_singleton] at hx
        subst hx
        exact ⟨le_refl _, hg.1, le_refl _⟩
      · by_cases hsat : RW ≤ (processListing RW true ⟨st.saved, st.seen⟩
            (pages st.currentPage)).1.saved
        · simp only [runUrlAux, if_pos hg, if_neg hpe, if_pos hsat]
          refine ⟨le_refl _, fun _ => rfl, ?_⟩
          intro x hx
          rw [List.mem_singleton] at hx
          subst hx
          exact ⟨le_refl _, hg.1, le_refl _⟩
        · simp only [runUrlAux, if_pos hg, if_neg hpe, if_neg hsat]
          obtain ⟨ih1, ih2, ih3⟩ := ih
            { currentPage := st.currentPage + 1,
              saved := (processListing RW true ⟨st.saved, st.seen⟩ (pages st.currentPage)).1.saved,
              seen := (processListing RW true ⟨st.saved, st.seen⟩ (pages st.currentPage)).1.seen }
          refine ⟨?_, fun _ => rfl, ?_⟩
          · exact le_trans (Nat.le_succ _) ih1
          · intro x hx
            rw [List.mem_cons] at hx
            rcases hx with hx | hx
            · subst hx
              exact ⟨le_refl _, hg.1, le_trans (Nat.le_succ _) ih1⟩
            · obtain ⟨hx1, hx2, hx3⟩ := ih3 x hx
              exact ⟨le_trans (Nat.le_succ _) hx1, hx2, hx3⟩
    · simp [runUrlAux, hg]

/-- C10: the pagination counter is run-global — the second start URL's
traversal resumes from the exact state (page counter included) the first
left behind; when the second URL fetches at all, its first fetched page is
the page number reached by the first URL; no page fetched by the second URL
precedes one fetched by the first; and every fetched page across both URLs
is bounded by the max-page limit, so the limit caps the combined traversal,
not each URL separately. -/
theorem pagination_counter_global (MP RW : ℕ) (o1 o2 : ℕ → List LProduct)
    (st : RunState) :
    (runAll MP RW [o1, o2] st).2.1 =
      [(runUrl MP RW o1 st).2.1, (runUrl MP RW o2 (runUrl MP RW o1 st).1).2.1] ∧
    ((runUrl MP RW o2 (runUrl MP RW o1 st).1).2.1 ≠ [] →
      (runUrl MP RW o2 (runUrl MP RW o1 st).1).2.1.head? =
        some ((runUrl MP RW o1 st).1.currentPage)) ∧
    (∀ x ∈ (runUrl MP RW o1 st).2.1,
      ∀ y ∈ (runUrl MP RW o2 (runUrl MP RW o1 st).1).2.1, x ≤ y) ∧
    (∀ x ∈ (runUrl MP RW o1 st).2.1, x ≤ MP) ∧
    (∀ y ∈ (runUrl MP RW o2 (runUrl MP RW o1 st).1).2.1, y ≤ MP) := by
  obtain ⟨h11, h12, h13⟩ := runUrlAux_spec MP RW o1 (MP + 1 - st.currentPage) st
  obtain ⟨h21, h22, h23⟩ := runUrlAux_spec MP RW o2
    (MP + 1 - (runUrl MP RW o1 st).1.currentPage) (runUrl MP RW o1 st).1
  refine ⟨rfl, h22, ?_, ?_, ?_⟩
  · intro x hx y hy
    exact le_trans (h13 x hx).2.2 (h23 y hy).1
  · intro x hx
    exact (h13 x hx).2.1
  · intro y hy
    exact (h23 y hy).2.1

/-- Witness for C10: with `MAX_PAGES = 3`, a first URL whose pages 1 and 2
have products and page 3 is empty, and a second URL with products on every
page, the first URL fetches pages 1, 2, 3 and the second resumes at page 3 —
not at page 1. -/
theorem pagination_counter_global_witness :
    (runUrl 3 100 (fun p => [{ product_id := .str ("b" ++ toString p) }])
        (runUrl 3 100
          (fun p => if p ≤ 2 then [{ product_id := .str ("a" ++ toString p) }] else [])
          ⟨1, 0, []⟩).1).2.1.head? = some 3 := by
  have h := (pagination_counter_global 3 100
    (fun p => if p ≤ 2 then [{ product_id := .str ("a" ++ toString p) }] else [])
    (fun p => [{ product_id := .str ("b" ++ toString p) }]) ⟨1, 0, []⟩).2.1 (by decide)
  have hpage : (runUrl 3 100
      (fun p => if p ≤ 2 then [{ product_id := .str ("a" ++ toString p) }] else [])
      ⟨1, 0, []⟩).1.currentPage = 3 := by decide
  rw [h, hpage]

/-! ## State graph values and `findProductArrays` (main.js 712-746) -/

/-- JSON values as produced by `JSON.parse` on the embedded state blob. -/
inductive JNode where
  | null
  | bool (b : Bool)
  | num (q : ℚ)
  | str (s : String)
  | arr (xs : List JNode)
  | obj (fs : List (String × JNode))
deriving Repr

/-- JS truthiness on parsed JSON values (arrays and objects are truthy). -/
def jTruthy : JNode → Bool
  | .null => false
  | .bool b => b
  | .num q => decide (q ≠ 0)
  | .str s => decide (s ≠ "")
  | .arr _ => true
  | .obj _ => true

/-- Property read `v[k]`: `none` is JS `undefined`.  For duplicate keys
`JSON.parse` keeps the last occurrence, hence the reversed lookup. -/
def jGet (v : JNode) (k : String) : Option JNode :=
  match v with
  | .obj fs => fs.reverse.lookup k
  | _ => none

/-- Truthiness of a possibly-undefined property. -/
def jTruthyOpt : Option JNode → Bool
  | none => false
  | some v => jTruthy v

/-- `v === 's'` for a possibly-undefined property against a string literal. -/
def strEq (v : Option JNode) (s : String) : Bool :=
  match v with
  | some (.str t) => t == s
  | _ => false

/-- `typeof item === 'object'` for a truthy item (arrays are objects in JS). -/
def isObjType : JNode → Bool
  | .arr _ => true
  | .obj _ => true
  | _ => false

/-- The product-shape test of main.js 718-722:
`item && typeof item === 'object' && (item.__typename === 'Product' ||
item.__typename === 'Item' || item.name || item.productId || item.id)`. -/
def isProductLike (item : JNode) : Bool :=
  jTruthy item && isObjType item &&
    (strEq (jGet item "__typename") "Product" || strEq (jGet item "__typename") "Item" ||
     jTruthyOpt (jGet item "name") || jTruthyOpt (jGet item "productId") ||
     jTruthyOpt (jGet item "id"))

/-- `item.__ref && apolloData[item.__ref]` (main.js 726, 735): the target
node when the item carries a truthy string reference that resolves to a
truthy graph node.  (A non-string `__ref` would be coerced to a property
key by JS; such refs do not occur in Apollo caches and resolve to nothing
here.) -/
def refTarget (g : List (String × JNode)) (item : JNode) : Option JNode :=
  match jGet item "__ref" with
  | some (.str r) =>
    if r ≠ "" then
      match g.reverse.lookup r with
      | some v => if jTruthy v then some v else none
      | none => none
    else none
  | _ => none

/-- The element resolution of main.js 725-730: substitute the graph target
for a reference marker, keep the element otherwise. -/
def resolveItem (g : List (String × JNode)) (item : JNode) : JNode :=
  if jTruthy item then
    match refTarget g item with
    | some v => v
    | none => item
  else item

/-- `findProductArrays(obj, apolloData, depth)` (main.js 712-746), fuel-indexed:
guard `depth > 5 || !obj` first; an array contributes itself (with references
resolved one level) when some element is product-like, and is not recursed
into; an object first recurses into its `__ref` target, then into all its
property values, each at `depth + 1`; scalars contribute nothing. -/
def findProductArraysAux (g : List (String × JNode)) :
    ℕ → JNode → ℕ → List (List JNode)
  | 0, _, _ => []
  | fuel + 1, v, depth =>
    if 5 < depth ∨ jTruthy v = false then []
    else
      match v with
      | .arr xs => if xs.any isProductLike then [xs.map (resolveItem g)] else []
      | .obj fs =>
        (match refTarget g (.obj fs) with
         | some tgt => findProductArraysAux g fuel tgt (depth + 1)
         | none => []) ++
        (fs.map Prod.snd).flatMap (fun w => findProductArraysAux g fuel w (depth + 1))
      | _ => []

/-- `findProductArrays` entered at a given depth: the fuel `7 - depth`
dominates the depth guard (each recursive call raises `depth` by one and
the guard fires strictly before the fuel runs out). -/
def findProductArrays (g : List (String × JNode)) (v : JNode) (depth : ℕ) :
    List (List JNode) :=
  findProductArraysAux g (7 - depth) v depth

/-- C7: reference resolution terminates on every graph — the traversal
carries an explicit depth counter and returns without recursing once the
depth exceeds 5; a graph whose node references itself is walked to the
depth cap and yields a result (here the empty one) instead of recursing
unboundedly; and within the cap, reference markers inside a product array
are substituted by their graph targets. -/
theorem findProductArrays_depth_bounded :
    (∀ (g : List (String × JNode)) (v : JNode) (d : ℕ), 5 < d →
      findProductArrays g v d = []) ∧
    (findProductArrays [("a", .obj [("__ref", .str "a")])]
      (.obj [("__ref", .str "a")]) 0 = []) ∧
    (findProductArrays [("p", .obj [("name", .str "Eggs")])]
      (.arr [.obj [("__ref", .str "p")], .obj [("name", .str "Milk")]]) 0 =
      [[.obj [("name", .str "Eggs")], .obj [("name", .str "Milk")]]]) := by
  refine ⟨?_, rfl, rfl⟩
  intro g v d hd
  unfold findProductArrays
  rcases Nat.lt_or_ge d 7 with h7 | h7
  · have he : 7 - d = 1 := by omega
    rw [he]
    simp [findProductArraysAux, hd]
  · have he : 7 - d = 0 := by omega
    rw [he]
    rfl

/-- Witness for C7: the depth-guard clause applied at depth 6 on a concrete
graph and node. -/
theorem findProductArrays_depth_bounded_witness :
    findProductArrays [("k", .num 1)] (.obj [("x", .num 1)]) 6 = [] :=
  findProductArrays_depth_bounded.1 [("k", .num 1)] (.obj [("x", .num 1)]) 6 (by norm_num)

/-! ## Apollo state decoding: `decodeHtmlEntities` (main.js 355-368) and
`extractApolloState` (main.js 387-446) -/

/-- Hexadecimal digit value. -/
def hexVal? (c : Char) : Option ℕ :=
  if c.isDigit then some (c.toNat - 48)
  else if 'A' ≤ c ∧ c ≤ 'F' then some (c.toNat - 55)
  else if 'a' ≤ c ∧ c ≤ 'f' then some (c.toNat - 87)
  else none

/-- `decodeURIComponent` modelled at the character level: every `%XX` with
two hex digits becomes the character with code `XX`; a `%` not followed by
two hex digits makes the whole decode fail (the source catches the throw
and keeps the raw text).  The UTF-8 multi-byte validation of the real
`decodeURIComponent` is not modelled — no theorem below depends on
multi-byte input. -/
def percentDecodeAux : ℕ → List Char → Option (List Char)
  | 0, _ => none
  | _ + 1, [] => some []
  | fuel + 1, '%' :: rest =>
    match rest with
    | h1 :: h2 :: rest2 =>
      match hexVal? h1, hexVal? h2 with
      | some a, some b => (percentDecodeAux fuel rest2).map (Char.ofNat (16 * a + b) :: ·)
      | _, _ => none
    | _ => none
  | fuel + 1, c :: rest => (percentDecodeAux fuel rest).map (c :: ·)

def percentDecode (s : String) : Option String :=
  (percentDecodeAux (s.length + 1) s.toList).map String.mk

/-- Global, left-to-right, non-overlapping replacement of a literal pattern
— the semantics of `String.prototype.replace` with a `/literal/g` regex. -/
def replaceAll : ℕ → List Char → List Char → List Char → List Char
  | 0, cs, _, _ => cs
  | _ + 1, [], _, _ => []
  | fuel + 1, c :: rest, pat, rep =>
    if pat.isPrefixOf (c :: rest) then
      rep ++ replaceAll fuel ((c :: rest).drop pat.length) pat rep
    else c :: replaceAll fuel rest pat rep

def strReplaceAll (s pat rep : String) : String :=
  String.mk (replaceAll (s.length + 1) s.toList pat.toList rep.toList)

/-- `.replace(/&#(\d+);/g, (_, dec) => String.fromCharCode(dec))`:
`String.fromCharCode` truncates to a 16-bit code unit; a resulting
surrogate half (not a scalar value) is mapped to the default character by
`Char.ofNat` — no theorem below exercises that corner. -/
def replaceDecEntities : ℕ → List Char → List Char
  | 0, cs => cs
  | _ + 1, [] => []
  | fuel + 1, '&' :: '#' :: rest =>
    match rest.takeWhile Char.isDigit, rest.dropWhile Char.isDigit with
    | [], _ => '&' :: replaceDecEntities fuel ('#' :: rest)
    | ds, ';' :: rest3 => Char.ofNat (digitsVal ds % 65536) :: replaceDecEntities fuel rest3
    | _, _ => '&' :: replaceDecEntities fuel ('#' :: rest)
  | fuel + 1, c :: rest => c :: replaceDecEntities fuel rest

/-- Value of a hex digit list (for `parseInt(hex, 16)`). -/
def hexDigitsVal (cs : List Char) : ℕ :=
  cs.foldl (fun a c => 16 * a + ((hexVal? c).getD 0)) 0

/-- Hex digit test matching `[0-9A-Fa-f]`. -/
def isJsHexDigit (c : Char) : Bool := (hexVal? c).isSome

/-- `.replace(/&#x([0-9A-Fa-f]+);/g, (_, hex) =>
String.fromCharCode(parseInt(hex, 16)))`. -/
def replaceHexEntities : ℕ → List Char → List Char
  | 0, cs => cs
  | _ + 1, [] => []
  | fuel + 1, '&' :: '#' :: 'x' :: rest =>
    match rest.takeWhile isJsHexDigit, rest.dropWhile isJsHexDigit with
    | [], _ => '&' :: replaceHexEntities fuel ('#' :: 'x' :: rest)
    | ds, ';' :: rest3 =>
      Char.ofNat (hexDigitsVal ds % 65536) :: replaceHexEntities fuel rest3
    | _, _ => '&' :: replaceHexEntities fuel ('#' :: 'x' :: rest)
  | fuel + 1, c :: rest => c :: replaceHexEntities fuel rest

/-- `decodeHtmlEntities` (main.js 355-368): the guard `if (!str) return str;`
followed by the source's replacement chain, in source order — the eight
literal entity replacements, then the decimal character references, then
the hex character references. -/
def decodeHtmlEntities (s : String) : String :=
  if s = "" then s
  else
    let s1 := strReplaceAll s "&amp;" "&"
    let s2 := strReplaceAll s1 "&lt;" "<"
    let s3 := strReplaceAll s2 "&gt;" ">"
    let s4 := strReplaceAll s3 "&quot;" "\x22"
    let s5 := strReplaceAll s4 "&#39;" "\x27"
    let s6 := strReplaceAll s5 "&#x27;" "\x27"
    let s7 := strReplaceAll s6 "&#x2F;" "/"
    let s8 := strReplaceAll s7 "&apos;" "\x27"
    let s9 := String.mk (replaceDecEntities (s8.length + 1) s8.toList)
    String.mk (replaceHexEntities (s9.length + 1) s9.toList)

/-- JS `String.prototype.trim` over the whitespace the pages contain. -/
def trimWs (c : Char) : Bool :=
  c == ' ' || c == '\t' || c == '\n' || c == '\r' || c == Char.ofNat 11 || c == Char.ofNat 12

def jsTrim (s : String) : String :=
  String.mk (((s.toList.dropWhile trimWs).reverse.dropWhile trimWs).reverse)

/-- `jsonString.startsWith('\x7b')`. -/
def startsWithBrace (s : String) : Bool :=
  match s.toList with
  | c :: _ => c == Char.ofNat 123
  | [] => false

/-- The first (and greedy) match of `/\x7b[\s\S]*\x7d/`: from the first
opening brace to the last closing brace, provided the closing one comes
later. -/
def braceSlice (s : String) : Option String :=
  let cs := s.toList
  match cs.findIdx? (· == Char.ofNat 123), cs.reverse.findIdx? (· == Char.ofNat 125) with
  | some i, some jr =>
    let j := cs.length - 1 - jr
    if i < j then some (String.mk ((cs.drop i).take (j - i + 1))) else none
  | _, _ => none

/-- JSON whitespace. -/
def jsonWs (c : Char) : Bool := c == ' ' || c == '\t' || c == '\n' || c == '\r'

/-- JSON string-escape characters. -/
def escChar? (e : Char) : Option Char :=
  if e == '"' then some '"'
  else if e == '\\' then some '\\'
  else if e == '/' then some '/'
  else if e == 'b' then some (Char.ofNat 8)
  else if e == 'f' then some (Char.ofNat 12)
  else if e == 'n' then some '\n'
  else if e == 'r' then some (Char.ofNat 13)
  else if e == 't' then some '\t'
  else none

/-- JSON string body (after the opening quote): plain characters, the named
escapes, and `\uXXXX`; raw control characters are rejected, as by
`JSON.parse`. -/
def parseJStrBody : ℕ → List Char → Option (List Char × List Char)
  | 0, _ => none
  | _ + 1, [] => none
  | fuel + 1, c :: rest =>
    if c == '"' then some ([], rest)
    else if c == '\\' then
      match rest with
      | [] => none
      | e :: rest2 =>
        if e == 'u' then
          match rest2 with
          | h1 :: h2 :: h3 :: h4 :: rest3 =>
            match hexVal? h1, hexVal? h2, hexVal? h3, hexVal? h4 with
            | some a, some b, some c2, some d =>
              (parseJStrBody fuel rest3).map
                (fun pr => (Char.ofNat (((a * 16 + b) * 16 + c2) * 16 + d) :: pr.1, pr.2))
            | _, _, _, _ => none
          | _ => none
        else
          match escChar? e with
          | some ch => (parseJStrBody fuel rest2).map (fun pr => (ch :: pr.1, pr.2))
          | none => none
    else if c.toNat < 32 then none
    else (parseJStrBody fuel rest).map (fun pr => (c :: pr.1, pr.2))

/-- JSON number (`-? digits frac? exp?`), as a rational.  Leading zeros are
accepted here although `JSON.parse` rejects them — no claim depends on that
corner of the number grammar. -/
def parseJNum (cs : List Char) : Option (ℚ × List Char) :=
  let neg := decide (cs.head? = some '-')
  let cs1 := if neg then cs.tail else cs
  let ip := cs1.takeWhile Char.isDigit
  let cs2 := cs1.dropWhile Char.isDigit
  if ip.isEmpty then none
  else
    let hasDot := decide (cs2.head? = some '.')
    let fp := if hasDot then cs2.tail.takeWhile Char.isDigit else []
    let cs3 := if hasDot then cs2.tail.dropWhile Char.isDigit else cs2
    if hasDot && fp.isEmpty then none
    else
      let hasExp := decide (cs3.head? = some 'e' ∨ cs3.head? = some 'E')
      let cs4 := if hasExp then cs3.tail else cs3
      let esign : ℤ := if decide (cs4.head? = some '-') then -1 else 1
      let cs5 :=
        if decide (cs4.head? = some '-') || decide (cs4.head? = some '+') then cs4.tail
        else cs4
      let ed := if hasExp then cs5.takeWhile Char.isDigit else []
      let cs6 := if hasExp then cs5.dropWhile Char.isDigit else cs3
      if hasExp && ed.isEmpty then none
      else
        let mantissa : ℚ := (digitsVal (ip ++ fp) : ℚ) / (10 : ℚ) ^ fp.length
        let signed : ℚ := if neg then -mantissa else mantissa
        some (signed * (10 : ℚ) ^ (esign * (digitsVal ed : ℤ)), cs6)

mutual
/-- One JSON value, returning the remaining input. -/
def parseJValue : ℕ → List Char → Option (JNode × List Char)
  | 0, _ => none
  | fuel + 1, cs =>
    match cs.dropWhile jsonWs with
    | [] => none
    | c :: rest =>
      if c == Char.ofNat 123 then
        match rest.dropWhile jsonWs with
        | d :: rest2 =>
          if d == Char.ofNat 125 then some (.obj [], rest2)
          else (parseJMembers fuel rest).map (fun pr => (.obj pr.1, pr.2))
        | [] => none
      else if c == '[' then
        match rest.dropWhile jsonWs with
        | d :: rest2 =>
          if d == ']' then some (.arr [], rest2)
          else (parseJElems fuel rest).map (fun pr => (.arr pr.1, pr.2))
        | [] => none
      else if c == '"' then
        (parseJStrBody (rest.length + 1) rest).map (fun pr => (.str (String.mk pr.1), pr.2))
      else if c == 't' then
        if ['r', 'u', 'e'].isPrefixOf rest then some (.bool true, rest.drop 3) else none
      else if c == 'f' then
        if ['a', 'l', 's', 'e'].isPrefixOf rest then some (.bool false, rest.drop 4) else none
      else if c == 'n' then
        if ['u', 'l', 'l'].isPrefixOf rest then some (.null, rest.drop 3) else none
      else
        (parseJNum (c :: rest)).map (fun pr => (.num pr.1, pr.2))
  termination_by structural fuel => fuel

/-- Object members `"key": value (, ...)* \x7d`. -/
def parseJMembers : ℕ → List Char → Option (List (String × JNode) × List Char)
  | 0, _ => none
  | fuel + 1, cs =>
    match cs.dropWhile jsonWs with
    | '"' :: rest =>
      match parseJStrBody (rest.length + 1) rest with
      | some (kl, r1) =>
        match r1.dropWhile jsonWs with
        | ':' :: r2 =>
          match parseJValue fuel r2 with
          | some (v, r3) =>
            match r3.dropWhile jsonWs with
            | ',' :: r4 =>
              (parseJMembers fuel r4).map (fun pr => ((String.mk kl, v) :: pr.1, pr.2))
            | d :: r4 =>
              if d == Char.ofNat 125 then some ([(String.mk kl, v)], r4) else none
            | [] => none
          | none => none
        | _ => none
      | none => none
    | _ => none
  termination_by structural fuel => fuel

/-- Array elements `value (, ...)* ]`. -/
def parseJElems : ℕ → List Char → Option (List JNode × List Char)
  | 0, _ => none
  | fuel + 1, cs =>
    match parseJValue fuel cs with
    | some (v, r1) =>
      match r1.dropWhile jsonWs with
      | ',' :: r2 => (parseJElems fuel r2).map (fun pr => (v :: pr.1, pr.2))
      | ']' :: r2 => some ([v], r2)
      | _ => none
    | none => none
  termination_by structural fuel => fuel
end

/-- `JSON.parse`: one value, with only whitespace allowed after it; any
violation is a parse failure (`none`, standing for the caught exception). -/
def jsonParse (s : String) : Option JNode :=
  match parseJValue (2 * s.length + 2) s.toList with
  | some (v, rest) => if (rest.dropWhile jsonWs).isEmpty then some v else none
  | none => none

/-- Stage 1 of the decoding pipeline: percent-decoding, applied only when
the raw text contains a percent-encoded opening brace (`%7B`) or quote
(`%22`); a decode failure keeps the raw text (the `try/catch` of main.js
408-413). -/
def pctStage (raw : String) : String :=
  if jsIncludes raw "%7B" || jsIncludes raw "%22" then
    match percentDecode raw with
    | some s => s
    | none => raw
  else raw

/-- Stage 3: trim, then cut to the outermost brace pair when the text does
not already start with a brace (main.js 420-426). -/
def braceStage (s : String) : String :=
  let t := jsTrim s
  if startsWithBrace t then t
  else
    match braceSlice t with
    | some m => m
    | none => t

/-- `extractApolloState` (main.js 387-446) from the raw script payload
onward (locating the `script#node-apollo-state` element is DOM work outside
this model): the `!rawData || rawData.length < 100` guard, percent-decoding
behind its `%7B`/`%22` test, HTML-entity decoding, trimming and brace
slicing, and `JSON.parse` with every failure — including a parse throw —
returning null. -/
def extractApolloState (rawData : String) : Option JNode :=
  if rawData = "" ∨ rawData.length < 100 then none
  else
    let raw1 :=
      if jsIncludes rawData "%7B" || jsIncludes rawData "%22" then
        match percentDecode rawData with
        | some s => s
        | none => rawData
      else rawData
    let decodedData := decodeHtmlEntities raw1
    let jsonString := jsTrim decodedData
    let jsonString2 :=
      if startsWithBrace jsonString then jsonString
      else
        match braceSlice jsonString with
        | some m => m
        | none => jsonString
    if jsonString2 ≠ "" ∧ startsWithBrace jsonString2 = true then jsonParse jsonString2
    else none

/-- A wrapper-and-entity-encoded state payload (121 characters). -/
def apolloExGood : String :=
  "window.__data = \x7b&quot;a&quot;:[true,null],&quot;b&quot;:&quot;ok&quot;\x7d;" ++
    String.mk (List.replicate 60 ' ')

/-- A long-enough payload whose decoded text is not valid JSON. -/
def apolloExBad : String :=
  "\x7b&quot;a&quot;" ++ String.mk (List.replicate 95 ' ')

set_option maxRecDepth 40000 in
/-- C6: payloads shorter than 100 characters yield null without any parse
attempt; longer payloads go through percent-decoding (when the raw text
contains a percent-encoded brace or quote), then HTML-entity decoding, then
trimming to the outermost brace pair, in that order, before `JSON.parse`;
a wrapper-and-entity-encoded payload decodes to its state object, and a
malformed payload yields null rather than an exception. -/
theorem extractApolloState_pipeline :
    (∀ raw : String, raw.length < 100 → extractApolloState raw = none) ∧
    (∀ raw : String, extractApolloState raw =
      if raw = "" ∨ raw.length < 100 then none
      else if braceStage (decodeHtmlEntities (pctStage raw)) ≠ "" ∧
          startsWithBrace (braceStage (decodeHtmlEntities (pctStage raw))) = true then
        jsonParse (braceStage (decodeHtmlEntities (pctStage raw)))
      else none) ∧
    extractApolloState apolloExGood =
      some (.obj [("a", .arr [.bool true, .null]), ("b", .str "ok")]) ∧
    extractApolloState apolloExBad = none := by
  refine ⟨?_, ?_, ?_, ?_⟩
  · intro raw h
    unfold extractApolloState
    rw [if_pos (Or.inr h)]
  · intro raw
    rfl
  · rfl
  · rfl

/-- Witness for C6: the under-100-characters clause applied to a concrete
short payload. -/
theorem extractApolloState_pipeline_witness :
    extractApolloState "\x7b\x22a\x22:1\x7d" = none :=
  extractApolloState_pipeline.1 "\x7b\x22a\x22:1\x7d" (by decide)
